import Mathlib

/-!
Verification of the partial-utterance windowing and embedding-aggregation
algorithm of the speaker encoder (`encoder/inference.py` together with the
framing constants of `params.py`).

The slicing geometry is embedded over exact integers and rationals:
Python `int(...)` truncation, `np.ceil` and `np.round` (round half to even)
are modelled explicitly, and Python float comparisons on the quantities
appearing here coincide with exact rational comparisons (all compared values
are rationals whose distance from the thresholds far exceeds rounding error).
Embedding vectors are modelled as elements of `EuclideanSpace ℝ (Fin d)` so
that the L2-norm statements are exact.
-/

namespace SV2TTS

/-- Sampling rate in Hz, from `params.py`. -/
def sampling_rate : ℕ := 16000

/-- Mel window step in milliseconds, from `params.py`. -/
def mel_window_step : ℕ := 10

/-- Number of spectrogram frames in a partial utterance, from `params.py`. -/
def partial_utterance_length : ℕ := 160

/-- Model embedding size, from `params.py`. -/
def model_embedding_size : ℕ := 256

/-- Python `int(q)` on a real value: truncation toward zero. -/
def pyInt (q : ℚ) : ℤ := if 0 ≤ q then ⌊q⌋ else ⌈q⌉

/-- NumPy `np.round` on a real value: round half to even. -/
def npRound (q : ℚ) : ℤ :=
  if q - ⌊q⌋ = 1/2 then (if 2 ∣ ⌊q⌋ then ⌊q⌋ else ⌊q⌋ + 1) else round q

/-- Code line `samples_per_frame = int((sampling_rate * mel_window_step / 1000))` from
`compute_partial_slices` (the product is exactly 160, so truncation and
rounding agree). -/
def samples_per_frame : ℤ := pyInt ((sampling_rate * mel_window_step : ℚ) / 1000)

/-- A half-open integer interval `[start, stop)`, modelling a Python `slice`
with both endpoints given. -/
structure Slice where
  start : ℤ
  stop : ℤ
deriving DecidableEq, Repr

/-- Code line `n_frames = int(np.ceil((n_samples + 1) / samples_per_frame))`. -/
def n_frames_of (n_samples : ℤ) : ℤ :=
  ⌈((n_samples : ℚ) + 1) / (samples_per_frame : ℚ)⌉

/-- Code line `frame_step = max(int(np.round(partial_utterance_n_frames * (1 - overlap))), 1)`. -/
def frame_step_of (partial_len : ℕ) (overlap : ℚ) : ℤ :=
  max (npRound ((partial_len : ℚ) * (1 - overlap))) 1

/-- Code line `steps = max(1, n_frames - partial_utterance_n_frames + frame_step + 1)`. -/
def steps_of (n_samples : ℤ) (partial_len : ℕ) (overlap : ℚ) : ℤ :=
  max 1 (n_frames_of n_samples - partial_len + frame_step_of partial_len overlap + 1)

/-- Number of iterations of Python `range(0, steps, fs)` for `fs ≥ 1`. -/
def range_count (steps fs : ℤ) : ℕ :=
  (steps.toNat + fs.toNat - 1) / fs.toNat

/-- The mel slices accumulated by the loop
`for i in range(0, steps, frame_step): mel_slices.append(slice(i, i + partial_utterance_n_frames))`
before the tail-coverage check. -/
def mel_slices_pre (n_samples : ℤ) (partial_len : ℕ) (overlap : ℚ) : List Slice :=
  (List.range (range_count (steps_of n_samples partial_len overlap)
      (frame_step_of partial_len overlap))).map
    (fun (j : ℕ) => ⟨(j : ℤ) * frame_step_of partial_len overlap,
                     (j : ℤ) * frame_step_of partial_len overlap + partial_len⟩)

/-- The waveform slices accumulated by the loop (`wav_range = mel_range * samples_per_frame`)
before the tail-coverage check. -/
def wav_slices_pre (n_samples : ℤ) (partial_len : ℕ) (overlap : ℚ) : List Slice :=
  (mel_slices_pre n_samples partial_len overlap).map
    (fun s => ⟨s.start * samples_per_frame, s.stop * samples_per_frame⟩)

/-- The function `compute_partial_slices(n_samples, partial_utterance_n_frames, min_pad_coverage, overlap)`.
The two `assert` statements are modelled by returning `none` (assertion failure,
nothing computed); the unguarded `wav_slices[-1]` access is modelled by `getLast?`
(the `none` branch would be an `IndexError`). -/
def compute_partial_slices (n_samples : ℤ) (partial_len : ℕ)
    (min_pad_coverage overlap : ℚ) : Option (List Slice × List Slice) :=
  if 0 ≤ overlap ∧ overlap < 1 then
    if 0 < min_pad_coverage ∧ min_pad_coverage ≤ 1 then
      match (wav_slices_pre n_samples partial_len overlap).getLast? with
      | none => none
      | some last =>
        if ((n_samples : ℚ) - (last.start : ℚ)) / ((last.stop : ℚ) - (last.start : ℚ)) <
              min_pad_coverage ∧
            (mel_slices_pre n_samples partial_len overlap).length > 1 then
          some ((wav_slices_pre n_samples partial_len overlap).dropLast,
                (mel_slices_pre n_samples partial_len overlap).dropLast)
        else
          some (wav_slices_pre n_samples partial_len overlap,
                mel_slices_pre n_samples partial_len overlap)
    else none
  else none

/-! ### Basic facts about the framing quantities -/

theorem samples_per_frame_eq : samples_per_frame = 160 := by
  have h : ((sampling_rate : ℚ) * (mel_window_step : ℚ)) / 1000 = ((160 : ℤ) : ℚ) := by
    norm_num [sampling_rate, mel_window_step]
  simp only [samples_per_frame, pyInt, h]
  rw [if_pos (by norm_num), Int.floor_intCast]

theorem one_le_frame_step (partial_len : ℕ) (overlap : ℚ) :
    1 ≤ frame_step_of partial_len overlap :=
  le_max_right _ _

theorem one_le_steps (n_samples : ℤ) (partial_len : ℕ) (overlap : ℚ) :
    1 ≤ steps_of n_samples partial_len overlap :=
  le_max_left _ _

theorem lt_range_count_iff (steps fs : ℤ) (hfs : 1 ≤ fs) (j : ℕ) :
    j < range_count steps fs ↔ (j : ℤ) * fs < steps := by
  have hf : 0 < fs.toNat := by omega
  have h1 : j < range_count steps fs ↔ j * fs.toNat < steps.toNat := by
    unfold range_count
    rw [Nat.lt_iff_add_one_le, Nat.le_div_iff_mul_le hf, Nat.add_one_mul]
    omega
  have h2 : ((j * fs.toNat : ℕ) : ℤ) = (j : ℤ) * fs := by
    push_cast
    rw [Int.toNat_of_nonneg (by omega)]
  rw [h1, ← Nat.cast_lt (α := ℤ), h2]
  omega

theorem one_le_range_count (steps fs : ℤ) (hs : 1 ≤ steps) (hfs : 1 ≤ fs) :
    1 ≤ range_count steps fs := by
  have := (lt_range_count_iff steps fs hfs 0).mpr (by simpa using hs)
  omega

theorem mel_slices_pre_length (n_samples : ℤ) (partial_len : ℕ) (overlap : ℚ) :
    (mel_slices_pre n_samples partial_len overlap).length =
      range_count (steps_of n_samples partial_len overlap)
        (frame_step_of partial_len overlap) := by
  rw [mel_slices_pre, List.length_map, List.length_range]

theorem wav_slices_pre_length (n_samples : ℤ) (partial_len : ℕ) (overlap : ℚ) :
    (wav_slices_pre n_samples partial_len overlap).length =
      range_count (steps_of n_samples partial_len overlap)
        (frame_step_of partial_len overlap) := by
  rw [wav_slices_pre, List.length_map, mel_slices_pre_length]

theorem mel_slices_pre_ne_nil (n_samples : ℤ) (partial_len : ℕ) (overlap : ℚ) :
    mel_slices_pre n_samples partial_len overlap ≠ [] := by
  have h := one_le_range_count (steps_of n_samples partial_len overlap)
    (frame_step_of partial_len overlap) (one_le_steps _ _ _) (one_le_frame_step _ _)
  have := mel_slices_pre_length n_samples partial_len overlap
  intro hnil
  rw [hnil] at this
  simp at this
  omega

theorem wav_slices_pre_ne_nil (n_samples : ℤ) (partial_len : ℕ) (overlap : ℚ) :
    wav_slices_pre n_samples partial_len overlap ≠ [] := by
  have h := one_le_range_count (steps_of n_samples partial_len overlap)
    (frame_step_of partial_len overlap) (one_le_steps _ _ _) (one_le_frame_step _ _)
  have := wav_slices_pre_length n_samples partial_len overlap
  intro hnil
  rw [hnil] at this
  simp at this
  omega

theorem wav_slices_pre_eq_map (n_samples : ℤ) (partial_len : ℕ) (overlap : ℚ) :
    wav_slices_pre n_samples partial_len overlap =
      (List.range (range_count (steps_of n_samples partial_len overlap)
          (frame_step_of partial_len overlap))).map
        (fun (j : ℕ) => ⟨(j : ℤ) * frame_step_of partial_len overlap * samples_per_frame,
            ((j : ℤ) * frame_step_of partial_len overlap + partial_len) * samples_per_frame⟩) := by
  rw [wav_slices_pre, mel_slices_pre, List.map_map]
  rfl

theorem mel_slices_pre_get (n_samples : ℤ) (partial_len : ℕ) (overlap : ℚ) (j : ℕ) :
    (mel_slices_pre n_samples partial_len overlap).get? j =
      if (j : ℤ) * frame_step_of partial_len overlap <
          steps_of n_samples partial_len overlap then
        some ⟨j * frame_step_of partial_len overlap,
              j * frame_step_of partial_len overlap + partial_len⟩
      else none := by
  rw [mel_slices_pre, List.get?_eq_getElem?, List.getElem?_map]
  by_cases h : (j : ℤ) * frame_step_of partial_len overlap <
      steps_of n_samples partial_len overlap
  · rw [if_pos h]
    rw [← lt_range_count_iff _ _ (one_le_frame_step partial_len overlap)] at h
    rw [List.getElem?_range h]
    rfl
  · rw [if_neg h]
    rw [← lt_range_count_iff _ _ (one_le_frame_step partial_len overlap)] at h
    rw [List.getElem?_eq_none (by rw [List.length_range]; omega)]
    rfl

theorem wav_slices_pre_get (n_samples : ℤ) (partial_len : ℕ) (overlap : ℚ) (j : ℕ) :
    (wav_slices_pre n_samples partial_len overlap).get? j =
      if (j : ℤ) * frame_step_of partial_len overlap <
          steps_of n_samples partial_len overlap then
        some ⟨j * frame_step_of partial_len overlap * samples_per_frame,
              (j * frame_step_of partial_len overlap + partial_len) * samples_per_frame⟩
      else none := by
  rw [wav_slices_pre_eq_map, List.get?_eq_getElem?, List.getElem?_map]
  by_cases h : (j : ℤ) * frame_step_of partial_len overlap <
      steps_of n_samples partial_len overlap
  · rw [if_pos h]
    rw [← lt_range_count_iff _ _ (one_le_frame_step partial_len overlap)] at h
    rw [List.getElem?_range h]
    rfl
  · rw [if_neg h]
    rw [← lt_range_count_iff _ _ (one_le_frame_step partial_len overlap)] at h
    rw [List.getElem?_eq_none (by rw [List.length_range]; omega)]
    rfl

theorem getLast?_map_range {α : Type} (c : ℕ) (hc : 0 < c) (f : ℕ → α) :
    ((List.range c).map f).getLast? = some (f (c - 1)) := by
  rw [List.getLast?_eq_getElem?, List.length_map, List.length_range, List.getElem?_map,
    List.getElem?_range (by omega)]
  rfl

theorem wav_slices_pre_getLast (n_samples : ℤ) (partial_len : ℕ) (overlap : ℚ) :
    (wav_slices_pre n_samples partial_len overlap).getLast? =
      some ⟨((range_count (steps_of n_samples partial_len overlap)
                (frame_step_of partial_len overlap) - 1 : ℕ) : ℤ) *
              frame_step_of partial_len overlap * samples_per_frame,
            (((range_count (steps_of n_samples partial_len overlap)
                (frame_step_of partial_len overlap) - 1 : ℕ) : ℤ) *
              frame_step_of partial_len overlap + partial_len) * samples_per_frame⟩ := by
  rw [wav_slices_pre_eq_map, getLast?_map_range _
    (one_le_range_count _ _ (one_le_steps _ _ _) (one_le_frame_step _ _)) _]

theorem compute_partial_slices_eq_of_valid (n_samples : ℤ) (partial_len : ℕ)
    (min_pad_coverage overlap : ℚ)
    (hov : 0 ≤ overlap ∧ overlap < 1) (hmpc : 0 < min_pad_coverage ∧ min_pad_coverage ≤ 1)
    (last : Slice) (hlast : (wav_slices_pre n_samples partial_len overlap).getLast? = some last) :
    compute_partial_slices n_samples partial_len min_pad_coverage overlap =
      if ((n_samples : ℚ) - (last.start : ℚ)) / ((last.stop : ℚ) - (last.start : ℚ)) <
            min_pad_coverage ∧
          (mel_slices_pre n_samples partial_len overlap).length > 1 then
        some ((wav_slices_pre n_samples partial_len overlap).dropLast,
              (mel_slices_pre n_samples partial_len overlap).dropLast)
      else
        some (wav_slices_pre n_samples partial_len overlap,
              mel_slices_pre n_samples partial_len overlap) := by
  rw [compute_partial_slices, if_pos hov, if_pos hmpc, hlast]

theorem mel_slices_pre_width (n_samples : ℤ) (partial_len : ℕ) (overlap : ℚ) :
    ∀ s ∈ mel_slices_pre n_samples partial_len overlap,
      s.stop - s.start = (partial_len : ℤ) := by
  intro s hs
  rw [mel_slices_pre] at hs
  obtain ⟨j, _, rfl⟩ := List.mem_map.mp hs
  simp

theorem wav_slices_pre_width (n_samples : ℤ) (partial_len : ℕ) (overlap : ℚ) :
    ∀ s ∈ wav_slices_pre n_samples partial_len overlap,
      s.stop - s.start = (partial_len : ℤ) * samples_per_frame := by
  intro s hs
  rw [wav_slices_pre_eq_map] at hs
  obtain ⟨j, _, rfl⟩ := List.mem_map.mp hs
  ring

theorem compute_partial_slices_cases (n_samples : ℤ) (partial_len : ℕ)
    (min_pad_coverage overlap : ℚ)
    (hov : 0 ≤ overlap ∧ overlap < 1) (hmpc : 0 < min_pad_coverage ∧ min_pad_coverage ≤ 1) :
    ∃ w m, compute_partial_slices n_samples partial_len min_pad_coverage overlap = some (w, m) ∧
      ((w = wav_slices_pre n_samples partial_len overlap ∧
        m = mel_slices_pre n_samples partial_len overlap) ∨
       (1 < (mel_slices_pre n_samples partial_len overlap).length ∧
        w = (wav_slices_pre n_samples partial_len overlap).dropLast ∧
        m = (mel_slices_pre n_samples partial_len overlap).dropLast)) ∧
      w ≠ [] ∧ m ≠ [] := by
  obtain ⟨last, hlast⟩ : ∃ last,
      (wav_slices_pre n_samples partial_len overlap).getLast? = some last :=
    ⟨_, wav_slices_pre_getLast n_samples partial_len overlap⟩
  rw [compute_partial_slices_eq_of_valid n_samples partial_len min_pad_coverage overlap
    hov hmpc last hlast]
  by_cases hc : ((n_samples : ℚ) - (last.start : ℚ)) /
        ((last.stop : ℚ) - (last.start : ℚ)) < min_pad_coverage ∧
      (mel_slices_pre n_samples partial_len overlap).length > 1
  · rw [if_pos hc]
    refine ⟨_, _, rfl, Or.inr ⟨hc.2, rfl, rfl⟩, ?_, ?_⟩
    · apply List.length_pos.mp
      rw [List.length_dropLast, wav_slices_pre_length]
      rw [mel_slices_pre_length] at hc
      omega
    · apply List.length_pos.mp
      rw [List.length_dropLast]
      omega
  · rw [if_neg hc]
    exact ⟨_, _, rfl, Or.inl ⟨rfl, rfl⟩,
      wav_slices_pre_ne_nil _ _ _, mel_slices_pre_ne_nil _ _ _⟩

theorem compute_partial_slices_assert_fail (n_samples : ℤ) (partial_len : ℕ)
    (min_pad_coverage overlap : ℚ)
    (h : ¬(0 ≤ overlap ∧ overlap < 1) ∨ ¬(0 < min_pad_coverage ∧ min_pad_coverage ≤ 1)) :
    compute_partial_slices n_samples partial_len min_pad_coverage overlap = none := by
  rw [compute_partial_slices]
  rcases h with h | h
  · rw [if_neg h]
  · by_cases hov : 0 ≤ overlap ∧ overlap < 1
    · rw [if_pos hov, if_neg h]
    · rw [if_neg hov]

/-- C8: calling `compute_partial_slices` with `overlap` outside `[0,1)` or
`min_pad_coverage` outside `(0,1]` fails the leading assertions immediately:
no slice lists are produced (modelled by the `none` result). -/
theorem compute_partial_slices_invalid (n_samples : ℤ) (partial_len : ℕ)
    (min_pad_coverage overlap : ℚ)
    (h : ¬(0 ≤ overlap ∧ overlap < 1) ∨ ¬(0 < min_pad_coverage ∧ min_pad_coverage ≤ 1)) :
    compute_partial_slices n_samples partial_len min_pad_coverage overlap = none :=
  compute_partial_slices_assert_fail n_samples partial_len min_pad_coverage overlap h

theorem compute_partial_slices_invalid_witness :
    ¬((0 : ℚ) < 2 ∧ (2 : ℚ) ≤ 1) ∧
      compute_partial_slices 32000 160 2 (1/2) = none :=
  ⟨by norm_num,
   compute_partial_slices_invalid 32000 160 2 (1/2) (Or.inr (by norm_num))⟩

/-- C9: for every integer `n_samples` (including non-positive values) with the
default parameters, `compute_partial_slices` returns non-empty slice lists:
`steps ≥ 1` and `frame_step ≥ 1` force at least one loop iteration, so the
`wav_slices[-1]` access is safe, and the coverage denominator always equals
`partial_len * samples_per_frame > 0`. -/
theorem compute_partial_slices_default_safe (n_samples : ℤ) :
    ∃ w m, compute_partial_slices n_samples 160 (3/4) (1/2) = some (w, m) ∧
      w ≠ [] ∧ m ≠ [] ∧
      1 ≤ steps_of n_samples 160 (1/2) ∧
      1 ≤ frame_step_of 160 (1/2) ∧
      wav_slices_pre n_samples 160 (1/2) ≠ [] ∧
      ∀ s ∈ wav_slices_pre n_samples 160 (1/2),
        s.stop - s.start = 160 * samples_per_frame ∧ 0 < s.stop - s.start := by
  obtain ⟨w, m, heq, _, hw, hm⟩ :=
    compute_partial_slices_cases n_samples 160 (3/4) (1/2) (by norm_num) (by norm_num)
  refine ⟨w, m, heq, hw, hm, one_le_steps _ _ _, one_le_frame_step _ _,
    wav_slices_pre_ne_nil _ _ _, fun s hs => ?_⟩
  have hwidth := wav_slices_pre_width n_samples 160 (1/2) s hs
  rw [samples_per_frame_eq] at hwidth ⊢
  norm_num at hwidth ⊢
  omega

theorem n_frames_32000 : n_frames_of 32000 = 201 := by
  rw [n_frames_of, samples_per_frame_eq, Int.ceil_eq_iff]
  norm_num

theorem frame_step_default : frame_step_of 160 (1/2) = 80 := by
  rw [frame_step_of, npRound]
  norm_num

theorem steps_32000 : steps_of 32000 160 (1/2) = 122 := by
  rw [steps_of, n_frames_32000, frame_step_default]
  norm_num

theorem mel_32000 : mel_slices_pre 32000 160 (1/2) = [⟨0, 160⟩, ⟨80, 240⟩] := by
  simp only [mel_slices_pre, frame_step_default, steps_32000]
  decide

theorem wav_32000 : wav_slices_pre 32000 160 (1/2) = [⟨0, 25600⟩, ⟨12800, 38400⟩] := by
  rw [wav_slices_pre, mel_32000]
  simp only [List.map_cons, List.map_nil, samples_per_frame_eq]
  decide

theorem compute_32000 : compute_partial_slices 32000 160 (3/4) (1/2) =
    some ([⟨0, 25600⟩, ⟨12800, 38400⟩], [⟨0, 160⟩, ⟨80, 240⟩]) := by
  rw [compute_partial_slices_eq_of_valid 32000 160 (3/4) (1/2) (by norm_num) (by norm_num)
    ⟨12800, 38400⟩ (by rw [wav_32000]; rfl)]
  rw [if_neg, wav_32000, mel_32000]
  intro h
  norm_num at h

theorem n_frames_8000 : n_frames_of 8000 = 51 := by
  rw [n_frames_of, samples_per_frame_eq, Int.ceil_eq_iff]
  norm_num

theorem steps_8000 : steps_of 8000 160 (1/2) = 1 := by
  rw [steps_of, n_frames_8000, frame_step_default]
  norm_num

theorem mel_8000 : mel_slices_pre 8000 160 (1/2) = [⟨0, 160⟩] := by
  simp only [mel_slices_pre, frame_step_default, steps_8000]
  decide

theorem wav_8000 : wav_slices_pre 8000 160 (1/2) = [⟨0, 25600⟩] := by
  rw [wav_slices_pre, mel_8000]
  simp only [List.map_cons, List.map_nil, samples_per_frame_eq]
  decide

theorem compute_8000 : compute_partial_slices 8000 160 (3/4) (1/2) =
    some ([⟨0, 25600⟩], [⟨0, 160⟩]) := by
  rw [compute_partial_slices_eq_of_valid 8000 160 (3/4) (1/2) (by norm_num) (by norm_num)
    ⟨0, 25600⟩ (by rw [wav_8000]; rfl)]
  rw [if_neg, wav_8000, mel_8000]
  intro h
  rw [mel_8000] at h
  norm_num at h

theorem compute_partial_slices_some_inv (n_samples : ℤ) (partial_len : ℕ)
    (min_pad_coverage overlap : ℚ) (w m : List Slice)
    (h : compute_partial_slices n_samples partial_len min_pad_coverage overlap = some (w, m)) :
    (w = wav_slices_pre n_samples partial_len overlap ∧
     m = mel_slices_pre n_samples partial_len overlap) ∨
    (1 < (mel_slices_pre n_samples partial_len overlap).length ∧
     w = (wav_slices_pre n_samples partial_len overlap).dropLast ∧
     m = (mel_slices_pre n_samples partial_len overlap).dropLast) := by
  by_cases hov : 0 ≤ overlap ∧ overlap < 1
  · by_cases hmpc : 0 < min_pad_coverage ∧ min_pad_coverage ≤ 1
    · obtain ⟨w2, m2, heq, hc, _, _⟩ :=
        compute_partial_slices_cases n_samples partial_len min_pad_coverage overlap hov hmpc
      rw [heq] at h
      have hp : (w2, m2) = (w, m) := Option.some.inj h
      rw [Prod.mk.injEq] at hp
      rw [← hp.1, ← hp.2]
      exact hc
    · rw [compute_partial_slices_assert_fail _ _ _ _ (Or.inr hmpc)] at h
      cases h
  · rw [compute_partial_slices_assert_fail _ _ _ _ (Or.inl hov)] at h
    cases h

theorem head?_dropLast_of_lt {α : Type} (l : List α) (h : 1 < l.length) :
    l.dropLast.head? = l.head? := by
  rw [List.head?_eq_getElem?, List.head?_eq_getElem?, List.dropLast_eq_take,
    List.getElem?_take, if_pos (by omega)]

theorem mel_slices_pre_head (n_samples : ℤ) (partial_len : ℕ) (overlap : ℚ) :
    (mel_slices_pre n_samples partial_len overlap).head? =
      some ⟨0, (partial_len : ℤ)⟩ := by
  rw [List.head?_eq_getElem?, ← List.get?_eq_getElem?, mel_slices_pre_get,
    if_pos (by simpa using one_le_steps n_samples partial_len overlap)]
  norm_num

theorem wav_slices_pre_head (n_samples : ℤ) (partial_len : ℕ) (overlap : ℚ) :
    (wav_slices_pre n_samples partial_len overlap).head? =
      some ⟨0, (partial_len : ℤ) * samples_per_frame⟩ := by
  rw [List.head?_eq_getElem?, ← List.get?_eq_getElem?, wav_slices_pre_get,
    if_pos (by simpa using one_le_steps n_samples partial_len overlap)]
  norm_num

theorem frame_step_of_pos (partial_len : ℕ) (overlap : ℚ) :
    0 < frame_step_of partial_len overlap :=
  lt_of_lt_of_le zero_lt_one (one_le_frame_step partial_len overlap)

theorem samples_per_frame_pos : (0 : ℤ) < samples_per_frame := by
  rw [samples_per_frame_eq]
  norm_num

theorem mel_slices_pre_sorted (n_samples : ℤ) (partial_len : ℕ) (overlap : ℚ) :
    (mel_slices_pre n_samples partial_len overlap).Pairwise
      (fun a b => a.start < b.start) := by
  rw [mel_slices_pre]
  refine (List.pairwise_lt_range _).map _ (fun a b hab => ?_)
  have h1 : (a : ℤ) < b := by exact_mod_cast hab
  exact mul_lt_mul_of_pos_right h1 (frame_step_of_pos partial_len overlap)

theorem wav_slices_pre_sorted (n_samples : ℤ) (partial_len : ℕ) (overlap : ℚ) :
    (wav_slices_pre n_samples partial_len overlap).Pairwise
      (fun a b => a.start < b.start) := by
  rw [wav_slices_pre_eq_map]
  refine (List.pairwise_lt_range _).map _ (fun a b hab => ?_)
  have h1 : (a : ℤ) < b := by exact_mod_cast hab
  exact mul_lt_mul_of_pos_right
    (mul_lt_mul_of_pos_right h1 (frame_step_of_pos partial_len overlap))
    samples_per_frame_pos

theorem compute_partial_slices_default_safe_witness :
    ∃ w m, compute_partial_slices (-5) 160 (3/4) (1/2) = some (w, m) ∧ w ≠ [] ∧ m ≠ [] := by
  obtain ⟨w, m, h1, h2, h3, _⟩ := compute_partial_slices_default_safe (-5)
  exact ⟨w, m, h1, h2, h3⟩

/-- C3: the pre-check plan enumerated by `compute_partial_slices` consists of
exactly one mel Range `[i, i + partial_len)` and one waveform Range
`[i * samples_per_frame, (i + partial_len) * samples_per_frame)` for each
`i = 0, frame_step, 2 * frame_step, ...` with `i < steps` (the `j`-th entry
sits at `i = j * frame_step`, present precisely when `j * frame_step < steps`),
where `n_frames_of`, `frame_step_of` and `steps_of` are the code's formulas;
for `n_samples = 32000`, `partial_len = 160`, `overlap = 1/2` this yields
`n_frames = 201`, `frame_step = 80`, `steps = 122` and start offsets 0 and 80
only. -/
theorem pre_plan_enumeration (n_samples : ℤ) (partial_len : ℕ) (overlap : ℚ)
    (hn : 0 < n_samples) (hov : 0 ≤ overlap ∧ overlap < 1) :
    (∀ j : ℕ,
      (mel_slices_pre n_samples partial_len overlap).get? j =
        (if (j : ℤ) * frame_step_of partial_len overlap <
            steps_of n_samples partial_len overlap then
          some ⟨(j : ℤ) * frame_step_of partial_len overlap,
                (j : ℤ) * frame_step_of partial_len overlap + partial_len⟩
        else none) ∧
      (wav_slices_pre n_samples partial_len overlap).get? j =
        (if (j : ℤ) * frame_step_of partial_len overlap <
            steps_of n_samples partial_len overlap then
          some ⟨(j : ℤ) * frame_step_of partial_len overlap * samples_per_frame,
                ((j : ℤ) * frame_step_of partial_len overlap + partial_len) *
                  samples_per_frame⟩
        else none)) ∧
    n_frames_of 32000 = 201 ∧
    frame_step_of 160 (1/2) = 80 ∧
    steps_of 32000 160 (1/2) = 122 ∧
    mel_slices_pre 32000 160 (1/2) = [⟨0, 160⟩, ⟨80, 240⟩] ∧
    wav_slices_pre 32000 160 (1/2) = [⟨0, 25600⟩, ⟨12800, 38400⟩] :=
  ⟨fun j => ⟨mel_slices_pre_get n_samples partial_len overlap j,
             wav_slices_pre_get n_samples partial_len overlap j⟩,
   n_frames_32000, frame_step_default, steps_32000, mel_32000, wav_32000⟩

theorem pre_plan_enumeration_witness :
    mel_slices_pre 32000 160 (1/2) = [⟨0, 160⟩, ⟨80, 240⟩] ∧
    wav_slices_pre 32000 160 (1/2) = [⟨0, 25600⟩, ⟨12800, 38400⟩] :=
  ⟨(pre_plan_enumeration 32000 160 (1/2) (by norm_num) (by norm_num)).2.2.2.2.1,
   (pre_plan_enumeration 32000 160 (1/2) (by norm_num) (by norm_num)).2.2.2.2.2⟩

/-- C1: with valid parameters, `compute_partial_slices` drops the last
enumerated segment pair if and only if the pre-check plan has more than one
segment and `coverage = (n_samples - s) / (e - s) < min_pad_coverage` for the
last enumerated waveform Range `[s, e)`; a single-segment pre-check plan is
returned unchanged regardless of coverage, and the returned plan is never
empty. -/
theorem tail_drop_iff (n_samples : ℤ) (partial_len : ℕ)
    (min_pad_coverage overlap : ℚ) (hn : 0 < n_samples)
    (hov : 0 ≤ overlap ∧ overlap < 1) (hmpc : 0 < min_pad_coverage ∧ min_pad_coverage ≤ 1) :
    ∃ w m last,
      (wav_slices_pre n_samples partial_len overlap).getLast? = some last ∧
      compute_partial_slices n_samples partial_len min_pad_coverage overlap = some (w, m) ∧
      ((1 < (mel_slices_pre n_samples partial_len overlap).length ∧
          ((n_samples : ℚ) - (last.start : ℚ)) / ((last.stop : ℚ) - (last.start : ℚ)) <
            min_pad_coverage) ↔
        (w = (wav_slices_pre n_samples partial_len overlap).dropLast ∧
         m = (mel_slices_pre n_samples partial_len overlap).dropLast ∧
         w.length + 1 = (wav_slices_pre n_samples partial_len overlap).length ∧
         m.length + 1 = (mel_slices_pre n_samples partial_len overlap).length)) ∧
      (¬(1 < (mel_slices_pre n_samples partial_len overlap).length ∧
          ((n_samples : ℚ) - (last.start : ℚ)) / ((last.stop : ℚ) - (last.start : ℚ)) <
            min_pad_coverage) →
        w = wav_slices_pre n_samples partial_len overlap ∧
        m = mel_slices_pre n_samples partial_len overlap) ∧
      ((mel_slices_pre n_samples partial_len overlap).length = 1 →
        w = wav_slices_pre n_samples partial_len overlap ∧
        m = mel_slices_pre n_samples partial_len overlap) ∧
      w ≠ [] ∧ m ≠ [] := by
  obtain ⟨last, hlast⟩ : ∃ last,
      (wav_slices_pre n_samples partial_len overlap).getLast? = some last :=
    ⟨_, wav_slices_pre_getLast n_samples partial_len overlap⟩
  rw [compute_partial_slices_eq_of_valid n_samples partial_len min_pad_coverage overlap
    hov hmpc last hlast]
  have hmw : (wav_slices_pre n_samples partial_len overlap).length =
      (mel_slices_pre n_samples partial_len overlap).length := by
    rw [wav_slices_pre_length, mel_slices_pre_length]
  have hm1 : 1 ≤ (mel_slices_pre n_samples partial_len overlap).length :=
    List.length_pos.mpr (mel_slices_pre_ne_nil n_samples partial_len overlap)
  by_cases hc : ((n_samples : ℚ) - (last.start : ℚ)) /
        ((last.stop : ℚ) - (last.start : ℚ)) < min_pad_coverage ∧
      (mel_slices_pre n_samples partial_len overlap).length > 1
  · rw [if_pos hc]
    refine ⟨_, _, last, hlast, rfl, ?_, ?_, ?_, ?_, ?_⟩
    · constructor
      · intro _
        refine ⟨rfl, rfl, ?_, ?_⟩ <;> rw [List.length_dropLast] <;> omega
      · intro _
        exact ⟨hc.2, hc.1⟩
    · intro hnc
      exact absurd ⟨hc.2, hc.1⟩ hnc
    · intro h1
      omega
    · apply List.length_pos.mp
      rw [List.length_dropLast]
      omega
    · apply List.length_pos.mp
      rw [List.length_dropLast]
      omega
  · rw [if_neg hc]
    refine ⟨_, _, last, hlast, rfl, ?_, fun _ => ⟨rfl, rfl⟩, fun _ => ⟨rfl, rfl⟩,
      wav_slices_pre_ne_nil n_samples partial_len overlap,
      mel_slices_pre_ne_nil n_samples partial_len overlap⟩
    constructor
    · intro h
      exact absurd ⟨h.2, h.1⟩ hc
    · intro h
      have := h.2.2.1
      omega

theorem tail_drop_iff_witness :
    ∃ w m, compute_partial_slices 8000 160 (3/4) (1/2) = some (w, m) ∧ w ≠ [] ∧ m ≠ [] := by
  obtain ⟨w, m, last, _, heq, _, _, _, hw, hm⟩ :=
    tail_drop_iff 8000 160 (3/4) (1/2) (by norm_num) (by norm_num) (by norm_num)
  exact ⟨w, m, heq, hw, hm⟩

/-- C5: in every plan returned by `compute_partial_slices`, waveform Ranges
have strictly increasing start offsets and every entry has the same length:
`stop - start = partial_len * samples_per_frame` for each waveform Range and
`partial_len` for each mel Range — no segment is truncated. -/
theorem plan_sorted_equal_width (n_samples : ℤ) (partial_len : ℕ)
    (min_pad_coverage overlap : ℚ) (w m : List Slice)
    (h : compute_partial_slices n_samples partial_len min_pad_coverage overlap = some (w, m)) :
    w.Pairwise (fun a b => a.start < b.start) ∧
    (∀ s ∈ w, s.stop - s.start = (partial_len : ℤ) * samples_per_frame) ∧
    (∀ s ∈ m, s.stop - s.start = (partial_len : ℤ)) := by
  rcases compute_partial_slices_some_inv _ _ _ _ _ _ h with ⟨rfl, rfl⟩ | ⟨hlen, rfl, rfl⟩
  · exact ⟨wav_slices_pre_sorted n_samples partial_len overlap,
      wav_slices_pre_width n_samples partial_len overlap,
      mel_slices_pre_width n_samples partial_len overlap⟩
  · refine ⟨List.Pairwise.sublist (List.dropLast_sublist _)
      (wav_slices_pre_sorted n_samples partial_len overlap), ?_, ?_⟩
    · intro s hs
      exact wav_slices_pre_width n_samples partial_len overlap s
        ((List.dropLast_sublist _).subset hs)
    · intro s hs
      exact mel_slices_pre_width n_samples partial_len overlap s
        ((List.dropLast_sublist _).subset hs)

theorem plan_sorted_equal_width_witness :
    ([⟨0, 25600⟩, ⟨12800, 38400⟩] : List Slice).Pairwise (fun a b => a.start < b.start) ∧
    (∀ s ∈ ([⟨0, 25600⟩, ⟨12800, 38400⟩] : List Slice),
      s.stop - s.start = ((160 : ℕ) : ℤ) * samples_per_frame) ∧
    (∀ s ∈ ([⟨0, 160⟩, ⟨80, 240⟩] : List Slice), s.stop - s.start = ((160 : ℕ) : ℤ)) :=
  plan_sorted_equal_width 32000 160 (3/4) (1/2)
    [⟨0, 25600⟩, ⟨12800, 38400⟩] [⟨0, 160⟩, ⟨80, 240⟩] compute_32000

/-- C10: every plan returned by `compute_partial_slices` starts with the mel
Range `[0, partial_len)` and the waveform Range
`[0, partial_len * samples_per_frame)`: the tail-coverage check only ever
removes the last segment, never the first. -/
theorem first_segment_fixed (n_samples : ℤ) (partial_len : ℕ)
    (min_pad_coverage overlap : ℚ) (w m : List Slice)
    (h : compute_partial_slices n_samples partial_len min_pad_coverage overlap = some (w, m)) :
    m.head? = some ⟨0, (partial_len : ℤ)⟩ ∧
    w.head? = some ⟨0, (partial_len : ℤ) * samples_per_frame⟩ := by
  rcases compute_partial_slices_some_inv _ _ _ _ _ _ h with ⟨rfl, rfl⟩ | ⟨hlen, rfl, rfl⟩
  · exact ⟨mel_slices_pre_head n_samples partial_len overlap,
      wav_slices_pre_head n_samples partial_len overlap⟩
  · have hlenw : 1 < (wav_slices_pre n_samples partial_len overlap).length := by
      rw [wav_slices_pre_length]
      rw [mel_slices_pre_length] at hlen
      omega
    rw [head?_dropLast_of_lt _ hlen, head?_dropLast_of_lt _ hlenw]
    exact ⟨mel_slices_pre_head n_samples partial_len overlap,
      wav_slices_pre_head n_samples partial_len overlap⟩

theorem first_segment_fixed_witness :
    ([⟨0, 160⟩, ⟨80, 240⟩] : List Slice).head? = some ⟨0, ((160 : ℕ) : ℤ)⟩ ∧
    ([⟨0, 25600⟩, ⟨12800, 38400⟩] : List Slice).head? =
      some ⟨0, ((160 : ℕ) : ℤ) * samples_per_frame⟩ :=
  first_segment_fixed 32000 160 (3/4) (1/2)
    [⟨0, 25600⟩, ⟨12800, 38400⟩] [⟨0, 160⟩, ⟨80, 240⟩] compute_32000

/-- C4: the `samples_per_frame` value used by `compute_partial_slices` equals
`round (sampling_rate * mel_window_step / 1000)` and is the positive integer
160 under the configured constants (the code truncates with `int`, but the
product is the exact integer 160, so truncation and rounding coincide). -/
theorem samples_per_frame_round_value :
    samples_per_frame = round (((sampling_rate : ℚ) * (mel_window_step : ℚ)) / 1000) ∧
    samples_per_frame = 160 ∧ 0 < samples_per_frame := by
  refine ⟨?_, samples_per_frame_eq, samples_per_frame_pos⟩
  rw [samples_per_frame_eq]
  norm_num [sampling_rate, mel_window_step]

/-!
### The utterance pipeline

`embed_utterance` orchestrates slicing, padding, feature extraction and
aggregation.  The waveform is a `List ℚ` (exact float values), the feature
extractor `wav_to_mel_filterbank` and the speaker model `embed_frames_batch`
are external collaborators passed in as opaque functions, and embeddings live
in `EuclideanSpace ℝ (Fin d)` so that the L2 norm is the genuine Euclidean
norm.  Python's varying return shape (a bare embedding, or a triple with the
partial data when `return_partials` is set) is modelled by an `Option` field
holding the two extra components; an uncaught exception is the outer `none`.
-/

/-- Python `wav = np.pad(wav, (0, max_wave_length - len(wav)), "constant")`
guarded by `if max_wave_length >= len(wav)`: right-pad with zeros up to
`target` when `target` is at least the current length, otherwise leave the
waveform untouched.  A new list is produced; the argument is never mutated. -/
def pad_wav (wav : List ℚ) (target : ℤ) : List ℚ :=
  if (wav.length : ℤ) ≤ target then
    wav ++ List.replicate (target - wav.length).toNat 0
  else wav

/-- Python `frames[s]` for a slice `s` with non-negative endpoints: the
elements with indices in `[start, stop)`, clipped to the array bounds. -/
def slice_index {α : Type} (l : List α) (s : Slice) : List α :=
  (l.drop s.start.toNat).take (s.stop - s.start).toNat

/-- The value returned by `embed_utterance`: the utterance embedding together
with the optional pair (partial embeddings, partial waveform ranges), present
exactly when `return_partials` was set. -/
structure UtteranceResult (d : ℕ) where
  embedding : EuclideanSpace ℝ (Fin d)
  partials : Option (Option (List (EuclideanSpace ℝ (Fin d))) × Option (List Slice))

/-- Code line `raw_embed = np.mean(partial_embeds, axis=0)`: the element-wise arithmetic
mean of the batch. -/
noncomputable def mean_embed {d : ℕ} (l : List (EuclideanSpace ℝ (Fin d))) :
    EuclideanSpace ℝ (Fin d) :=
  ((l.length : ℝ))⁻¹ • l.sum

/-- Code line `embed = raw_embed / np.linalg.norm(raw_embed, 2)`: the mean divided by
its Euclidean norm. -/
noncomputable def aggregate {d : ℕ} (l : List (EuclideanSpace ℝ (Fin d))) :
    EuclideanSpace ℝ (Fin d) :=
  ‖mean_embed l‖⁻¹ • mean_embed l

/-- The function `embed_utterance(wav, using_partials, return_partials, **kwargs)` with the
external collaborators `wav_to_mel_filterbank` (feature extractor) and
`model_forward` (`embed_frames_batch` with the loaded model). -/
noncomputable def embed_utterance {F : Type} {d : ℕ}
    (wav_to_mel_filterbank : List ℚ → List F)
    (model_forward : List (List F) → List (EuclideanSpace ℝ (Fin d)))
    (wav : List ℚ) (using_partials return_partials : Bool)
    (partial_len : ℕ) (min_pad_coverage overlap : ℚ) :
    Option (UtteranceResult d) :=
  if !using_partials then
    some ⟨(model_forward [wav_to_mel_filterbank wav]).headI,
          if return_partials then some (none, none) else none⟩
  else
    match compute_partial_slices (wav.length : ℤ) partial_len min_pad_coverage overlap with
    | none => none
    | some (wave_slices, mel_slices) =>
      match wave_slices.getLast? with
      | none => none
      | some last =>
        let frames := wav_to_mel_filterbank (pad_wav wav last.stop)
        let partial_embeds := model_forward (mel_slices.map (fun s => slice_index frames s))
        some ⟨aggregate partial_embeds,
              if return_partials then some (some partial_embeds, some wave_slices) else none⟩

/-- C6: with `using_partials = false`, `embed_utterance` feeds the whole
waveform's spectrogram to the model as a single batch element and returns that
single model output unmodified (no slicing, no mean, no renormalization); the
partial embeddings and partial waveform ranges are absent (`None`) regardless
of `return_partials`, and the result does not depend on any slicing
parameter. -/
theorem whole_utterance_path (F : Type) (d : ℕ)
    (wav_to_mel_filterbank : List ℚ → List F)
    (model_forward : List (List F) → List (EuclideanSpace ℝ (Fin d)))
    (wav : List ℚ) (return_partials : Bool)
    (partial_len : ℕ) (min_pad_coverage overlap : ℚ) :
    embed_utterance wav_to_mel_filterbank model_forward wav false return_partials
        partial_len min_pad_coverage overlap =
      some ⟨(model_forward [wav_to_mel_filterbank wav]).headI,
            if return_partials then some (none, none) else none⟩ :=
  rfl

/-- C7: in the partial-utterance path the waveform handed to the feature
extractor is `pad_wav wav last.stop`: the original waveform right-padded with
numeric zeros up to the stop offset of the last waveform Range exactly when
that offset exceeds the current length, and left at its original length
otherwise (padding by zero elements when the offset equals the length); the
original prefix is preserved unchanged and the input list is not mutated. -/
theorem pad_wav_spec (wav : List ℚ) (t : ℤ) :
    ((wav.length : ℤ) < t →
      pad_wav wav t = wav ++ List.replicate (t - wav.length).toNat 0 ∧
      ((pad_wav wav t).length : ℤ) = t ∧
      (pad_wav wav t).take wav.length = wav ∧
      ∀ q ∈ (pad_wav wav t).drop wav.length, q = 0) ∧
    (t ≤ (wav.length : ℤ) → pad_wav wav t = wav) := by
  constructor
  · intro h
    have hle : (wav.length : ℤ) ≤ t := le_of_lt h
    rw [pad_wav, if_pos hle]
    refine ⟨rfl, ?_, ?_, ?_⟩
    · rw [List.length_append, List.length_replicate]
      omega
    · rw [List.take_left]
    · intro q hq
      rw [List.drop_left] at hq
      exact List.eq_of_mem_replicate hq
  · intro h
    rw [pad_wav]
    by_cases he : (wav.length : ℤ) ≤ t
    · rw [if_pos he]
      have ht : t - (wav.length : ℤ) = 0 := by omega
      rw [ht]
      simp
    · rw [if_neg he]

theorem pad_wav_spec_witness :
    (((1 : ℤ) < 3) ∧ pad_wav [(1 : ℚ)] 3 = [1, 0, 0]) ∧
    (((1 : ℤ) ≤ 2) ∧ pad_wav [(1 : ℚ), 2] 1 = [1, 2]) := by
  refine ⟨⟨by norm_num, ?_⟩, ⟨by norm_num, ?_⟩⟩
  · rw [((pad_wav_spec [(1 : ℚ)] 3).1 (by norm_num)).1]
    rfl
  · exact (pad_wav_spec [(1 : ℚ), 2] 1).2 (by norm_num)

/-- C2: in the partial-utterance path, the embedding returned by
`embed_utterance` is `aggregate` of the batch of per-segment model outputs;
`aggregate` is the element-wise arithmetic mean divided by its Euclidean norm,
and whenever the mean vector is non-zero the result has L2 norm exactly 1. -/
theorem aggregate_mean_normalized :
    (∀ (F : Type) (d : ℕ) (wav_to_mel_filterbank : List ℚ → List F)
        (model_forward : List (List F) → List (EuclideanSpace ℝ (Fin d)))
        (wav : List ℚ) (return_partials : Bool) (partial_len : ℕ)
        (min_pad_coverage overlap : ℚ) (r : UtteranceResult d),
        embed_utterance wav_to_mel_filterbank model_forward wav true return_partials
            partial_len min_pad_coverage overlap = some r →
        ∃ batch, r.embedding = aggregate (model_forward batch)) ∧
    (∀ (d : ℕ) (l : List (EuclideanSpace ℝ (Fin d))),
        aggregate l = ‖mean_embed l‖⁻¹ • mean_embed l) ∧
    (∀ (d : ℕ) (l : List (EuclideanSpace ℝ (Fin d))),
        mean_embed l ≠ 0 → ‖aggregate l‖ = 1) := by
  refine ⟨?_, fun d l => rfl, fun d l h => ?_⟩
  · intro F d melfb model wav rp pl mpc ov r hr
    rw [embed_utterance] at hr
    simp only [Bool.not_true, Bool.false_eq_true, if_false] at hr
    rcases hcomp : compute_partial_slices (wav.length : ℤ) pl mpc ov with _ | ⟨ws, ms⟩ <;>
      rw [hcomp] at hr
    · cases hr
    · dsimp only at hr
      rcases hlast : ws.getLast? with _ | last <;> rw [hlast] at hr
      · cases hr
      · rcases Option.some.inj hr with rfl
        exact ⟨_, rfl⟩
  · rw [aggregate]
    exact norm_smul_inv_norm h

theorem aggregate_mean_normalized_witness :
    ‖aggregate [(fun _ => (2 : ℝ) : EuclideanSpace ℝ (Fin 1))]‖ = 1 := by
  apply aggregate_mean_normalized.2.2
  intro h
  have h2 : (fun _ => (2 : ℝ) : EuclideanSpace ℝ (Fin 1)) = 0 := by
    simpa [mean_embed] using h
  have h3 := congrFun h2 0
  norm_num at h3

end SV2TTS
